import Mathlib

set_option linter.unusedSectionVars false

/-!
Verification of the RT_SYCL path tracer (src/RT_SYCL/main.cpp, src/RT_SYCL/box.hpp).

The scalar type of the C++ code is a floating-point `real_t`; we embed it as an
arbitrary linear ordered field `K` (instantiated at `ℚ` for concrete evaluation
and at `ℝ` where the square root matters).  The `infinity` constant used as an
upper bound for ray-parameter intervals is embedded as `⊤ : WithTop K`.
Floating-point `sqrt` appears only inside vector normalisation, the quadratic
solver of the sphere and the gamma step of `save_image`; it is embedded as an
explicit function parameter `sq : K → K`, instantiated with `Real.sqrt` at `ℝ`.
-/

namespace PathTracer

/-- 3-component vector (vec3.hpp is summarised by the spec's data model §3:
value-type componentwise arithmetic, dot/cross, normalisation). -/
structure Vec3 (K : Type) where
  x : K
  y : K
  z : K
deriving DecidableEq

/-- Ray: origin plus direction, parametrised as `origin + t • direction`. -/
structure Ray (K : Type) where
  orig : Vec3 K
  dir : Vec3 K
deriving DecidableEq

/-- Modelled from the spec: material.hpp is not under src/; §3 describes the
material descriptor as a tagged variant Lambertian(albedo) | Metal(albedo, fuzz)
(the albedo texture lookup is collapsed to its resulting color). -/
inductive material_t (K : Type) where
  | Lambertian (albedo : Vec3 K)
  | Metal (albedo : Vec3 K) (fuzz : K)
deriving DecidableEq

/-- Modelled from the spec: hitable.hpp is not under src/; §3 describes the hit
record as point of intersection, surface normal, parametric distance t and the
material reference. -/
structure hit_record (K : Type) where
  p : Vec3 K
  normal : Vec3 K
  t : K
  mat : material_t K
deriving DecidableEq

variable {K : Type} [LinearOrderedField K]

def vadd (u v : Vec3 K) : Vec3 K := ⟨u.x + v.x, u.y + v.y, u.z + v.z⟩

def vzero : Vec3 K := ⟨0, 0, 0⟩

lemma vadd_assoc (u v w : Vec3 K) : vadd (vadd u v) w = vadd u (vadd v w) := by
  simp only [vadd, Vec3.mk.injEq]
  exact ⟨add_assoc _ _ _, add_assoc _ _ _, add_assoc _ _ _⟩

lemma vadd_comm (u v : Vec3 K) : vadd u v = vadd v u := by
  simp only [vadd, Vec3.mk.injEq]
  exact ⟨add_comm _ _, add_comm _ _, add_comm _ _⟩

lemma vzero_vadd (u : Vec3 K) : vadd vzero u = u := by
  simp only [vadd, vzero, zero_add]

lemma vadd_vzero (u : Vec3 K) : vadd u vzero = u := by
  simp only [vadd, vzero, add_zero]

instance : Zero (Vec3 K) := ⟨vzero⟩

instance : Add (Vec3 K) := ⟨vadd⟩

instance : AddCommMonoid (Vec3 K) where
  add_assoc := vadd_assoc
  zero_add := vzero_vadd
  add_zero := vadd_vzero
  add_comm := vadd_comm
  nsmul := nsmulRec

/-- Componentwise (Hadamard) product, the vec3 `operator*` used for colors. -/
instance : Mul (Vec3 K) := ⟨fun u v => ⟨u.x * v.x, u.y * v.y, u.z * v.z⟩⟩

instance : Sub (Vec3 K) := ⟨fun u v => ⟨u.x - v.x, u.y - v.y, u.z - v.z⟩⟩

instance : SMul K (Vec3 K) := ⟨fun a v => ⟨a * v.x, a * v.y, a * v.z⟩⟩

@[simp] lemma Vec3.add_def (u v : Vec3 K) :
    u + v = ⟨u.x + v.x, u.y + v.y, u.z + v.z⟩ := rfl

@[simp] lemma Vec3.zero_def : (0 : Vec3 K) = ⟨0, 0, 0⟩ := rfl

@[simp] lemma Vec3.mul_def (u v : Vec3 K) :
    u * v = ⟨u.x * v.x, u.y * v.y, u.z * v.z⟩ := rfl

@[simp] lemma Vec3.sub_def (u v : Vec3 K) :
    u - v = ⟨u.x - v.x, u.y - v.y, u.z - v.z⟩ := rfl

@[simp] lemma Vec3.smul_def (a : K) (v : Vec3 K) :
    a • v = ⟨a * v.x, a * v.y, a * v.z⟩ := rfl

def dot (u v : Vec3 K) : K := u.x * v.x + u.y * v.y + u.z * v.z

def cross (u v : Vec3 K) : Vec3 K :=
  ⟨u.y * v.z - u.z * v.y, u.z * v.x - u.x * v.z, u.x * v.y - u.y * v.x⟩

/-- Componentwise division by a scalar, the vec3 `operator/`. -/
def divScalar (v : Vec3 K) (s : K) : Vec3 K := ⟨v.x / s, v.y / s, v.z / s⟩

/-- Source `unit_vector(v) = v / v.length()` with `length = sqrt(dot v v)`; the
floating-point sqrt is the explicit parameter `sq`. -/
def unit_vector (sq : K → K) (v : Vec3 K) : Vec3 K := divScalar v (sq (dot v v))

/-- The method `ray::at`: the point `origin + t * direction`. -/
def ray_at (r : Ray K) (t : K) : Vec3 K := r.orig + t • r.dir

/-- Default-constructed hit record (`hit_record temp_rec;` in the C++). -/
def dflt_rec : hit_record K := ⟨⟨0, 0, 0⟩, ⟨0, 0, 0⟩, 0, .Lambertian ⟨0, 0, 0⟩⟩

/-! ## The nearest-hit scan

`render_kernel::hit_world` (main.cpp:67-81) and `box::hit` (box.hpp:23-39) are
the same loop: fold over the primitive list keeping `hit_anything`,
`closest_so_far`, the output record and a staging record, querying each
primitive with the upper bound tightened to the best-so-far distance.  We embed
the loop once, generically in the element type `α` and the record type `β`. -/

/-- Minimum of a list of scalars, `none` on the empty list. -/
def lmin? : List K → Option K
  | [] => none
  | t :: ts =>
    match lmin? ts with
    | none => some t
    | some m => some (min t m)

lemma lmin?_eq_none_iff (l : List K) : lmin? l = none ↔ l = [] := by
  cases l with
  | nil => simp [lmin?]
  | cons t ts =>
    simp only [lmin?]
    cases lmin? ts <;> simp

theorem lmin?_eq_some_iff (l : List K) (m : K) :
    lmin? l = some m ↔ m ∈ l ∧ ∀ x ∈ l, m ≤ x := by
  induction l generalizing m with
  | nil => simp [lmin?]
  | cons t ts ih =>
    simp only [lmin?]
    cases hts : lmin? ts with
    | none =>
      have : ts = [] := (lmin?_eq_none_iff ts).1 hts
      subst this
      constructor
      · rintro h
        injection h with h
        subst h
        exact ⟨List.mem_singleton.2 rfl, by intro x hx; simp at hx; simp [hx]⟩
      · rintro ⟨hm, _⟩
        simp at hm
        simp [hm]
    | some mts =>
      have hmem : mts ∈ ts ∧ ∀ x ∈ ts, mts ≤ x := (ih mts).1 hts
      constructor
      · rintro h
        injection h with h
        subst h
        rcases le_total t mts with hle | hle
        · refine ⟨by simp [min_eq_left hle], ?_⟩
          intro x hx
          rcases List.mem_cons.1 hx with hx | hx
          · simp [hx, min_eq_left hle]
          · exact le_trans (min_le_right _ _) (hmem.2 x hx)
        · refine ⟨List.mem_cons_of_mem _
            (by rw [min_eq_right hle]; exact hmem.1), ?_⟩
          intro x hx
          rcases List.mem_cons.1 hx with hx | hx
          · simp [hx, min_le_left]
          · exact le_trans (min_le_right _ _) (hmem.2 x hx)
      · rintro ⟨hm, hlb⟩
        rcases List.mem_cons.1 hm with hm | hm
        · subst hm
          have : m ≤ mts := hlb mts (List.mem_cons_of_mem _ hmem.1)
          simp [min_eq_left this]
        · have h1 : mts ≤ m := hmem.2 m hm
          have h2 : m ≤ t := hlb t (List.mem_cons_self _ _)
          have h3 : m ≤ mts := hlb mts (List.mem_cons_of_mem _ hmem.1)
          have : mts = m := le_antisymm h1 h3
          subst this
          simp [min_eq_right h2]

/-- The candidates of a primitive that lie strictly inside the open interval
`(tmin, cl)`; `cl` may be the `infinity` upper bound `⊤`. -/
def icandsOf (tmin : K) (cl : WithTop K) (l : List K) : List K :=
  l.filter (fun t => decide (tmin < t) && decide ((t : WithTop K) < cl))

lemma mem_icandsOf {tmin : K} {cl : WithTop K} {l : List K} {u : K} :
    u ∈ icandsOf tmin cl l ↔ u ∈ l ∧ tmin < u ∧ (u : WithTop K) < cl := by
  simp [icandsOf, List.mem_filter, and_assoc]

lemma icandsOf_eq_nil {tmin : K} {cl : WithTop K} {l : List K} :
    icandsOf tmin cl l = [] ↔ ∀ u ∈ l, ¬(tmin < u ∧ (u : WithTop K) < cl) := by
  constructor
  · intro h u hu hcond
    have : u ∈ icandsOf tmin cl l := mem_icandsOf.2 ⟨hu, hcond⟩
    simp [h] at this
  · intro h
    rcases hne : icandsOf tmin cl l with _ | ⟨u, rest⟩
    · rfl
    · have : u ∈ icandsOf tmin cl l := by rw [hne]; exact List.mem_cons_self _ _
      rcases mem_icandsOf.1 this with ⟨hu, hcond⟩
      exact absurd hcond (h u hu)

/-- All in-interval candidates of a list of primitives, given their candidate
function `cnds`. -/
def candsAll (tmin : K) (cl : WithTop K) (cnds : α → List K) : List α → List K
  | [] => []
  | a :: l => icandsOf tmin cl (cnds a) ++ candsAll tmin cl cnds l

lemma mem_candsAll {tmin : K} {cl : WithTop K} {cnds : α → List K}
    {l : List α} {u : K} :
    u ∈ candsAll tmin cl cnds l ↔ ∃ a ∈ l, u ∈ icandsOf tmin cl (cnds a) := by
  induction l with
  | nil => simp [candsAll]
  | cons a l ih => simp [candsAll, ih, List.mem_append, or_and_right, exists_or]

/-- The scan loop shared by `hit_world` and `box::hit`: iterate over the
primitives, querying each with the upper bound `closest_so_far`; on a hit, set
the flag, shrink `closest_so_far` to the reported `t` and copy the staging
record to the output. -/
def scan_loop (hitF : α → WithTop K → β → Bool × β) (tOf : β → K) :
    List α → Bool → WithTop K → β → β → Bool × β
  | [], ha, _, acc, _ => (ha, acc)
  | a :: l, ha, cl, acc, tmp =>
    let res := hitF a cl tmp
    if res.1 then scan_loop hitF tOf l true (↑(tOf res.2)) res.2 res.2
    else scan_loop hitF tOf l ha cl acc res.2

/-- The contract of a per-primitive hit query, as the spec §4.1/§4.3 describe
it: report the smallest candidate parameter strictly inside `(tmin, cl)`,
filling the record from it; otherwise report no hit and return the staging
record unchanged. -/
def HitQuery (tmin : K) (hitF : α → WithTop K → β → Bool × β)
    (cnds : α → List K) (outF : α → K → β) : Prop :=
  ∀ a cl tmp, hitF a cl tmp =
    match lmin? (icandsOf tmin cl (cnds a)) with
    | some t => (true, outF a t)
    | none => (false, tmp)

section ScanLemmas

variable {α β : Type} {hitF : α → WithTop K → β → Bool × β} {tOf : β → K}
variable {cnds : α → List K} {outF : α → K → β} {tmin : K}

/-- Once the flag is set it stays set. -/
lemma scan_loop_flag_true (l : List α) :
    ∀ (cl : WithTop K) (acc tmp : β),
      (scan_loop hitF tOf l true cl acc tmp).1 = true := by
  induction l with
  | nil => intro cl acc tmp; rfl
  | cons a l ih =>
    intro cl acc tmp
    simp only [scan_loop]
    by_cases h : (hitF a cl tmp).1 <;> simp [h, ih]

/-- Flag characterisation: the scan reports a hit iff the flag was already set
or some primitive has a candidate in the open interval. -/
lemma scan_loop_flag (hq : HitQuery tmin hitF cnds outF) (l : List α) :
    ∀ (ha : Bool) (cl : WithTop K) (acc tmp : β),
      (scan_loop hitF tOf l ha cl acc tmp).1 = true ↔
        ha = true ∨ candsAll tmin cl cnds l ≠ [] := by
  induction l with
  | nil =>
    intro ha cl acc tmp
    simp [scan_loop, candsAll]
  | cons a l ih =>
    intro ha cl acc tmp
    simp only [scan_loop, hq a cl tmp]
    rcases hm : lmin? (icandsOf tmin cl (cnds a)) with _ | t
    · have hnil : icandsOf tmin cl (cnds a) = [] := (lmin?_eq_none_iff _).1 hm
      simp only [candsAll, hnil, List.nil_append]
      simpa using ih ha cl acc tmp
    · have hmem : t ∈ icandsOf tmin cl (cnds a) :=
        ((lmin?_eq_some_iff _ _).1 hm).1
      simp only [if_pos rfl]
      constructor
      · intro _
        right
        intro hnil
        have : t ∈ candsAll tmin cl cnds (a :: l) :=
          mem_candsAll.2 ⟨a, List.mem_cons_self _ _, hmem⟩
        simp [hnil] at this
      · intro _
        exact scan_loop_flag_true l _ _ _

/-- Frame condition: when the scan reports no hit, the caller's record is
returned unchanged. -/
lemma scan_loop_no_hit (l : List α) :
    ∀ (ha : Bool) (cl : WithTop K) (acc tmp : β),
      (scan_loop hitF tOf l ha cl acc tmp).1 = false →
        scan_loop hitF tOf l ha cl acc tmp = (ha, acc) := by
  induction l with
  | nil => intro ha cl acc tmp _; rfl
  | cons a l ih =>
    intro ha cl acc tmp
    simp only [scan_loop]
    cases h : (hitF a cl tmp).1 with
    | true =>
      rw [if_pos rfl]
      intro hfalse
      have := @scan_loop_flag_true K _ α β hitF tOf l
        (↑(tOf (hitF a cl tmp).2)) (hitF a cl tmp).2 (hitF a cl tmp).2
      rw [hfalse] at this
      exact absurd this (by simp)
    | false =>
      rw [if_neg Bool.false_ne_true]
      exact ih ha cl acc _

/-- Value characterisation: when the scan reports a hit (starting from any
state), the returned record is `outF a b` for some scanned primitive `a` whose
candidate `b` is the global minimum of all in-interval candidates — unless no
candidate existed at all, in which case the flag was already set and the
accumulator is returned. -/
lemma scan_loop_hit (hq : HitQuery tmin hitF cnds outF)
    (hout : ∀ a t, tOf (outF a t) = t) (l : List α) :
    ∀ (ha : Bool) (cl : WithTop K) (acc tmp : β) (R : β),
      scan_loop hitF tOf l ha cl acc tmp = (true, R) →
        (candsAll tmin cl cnds l = [] ∧ ha = true ∧ R = acc) ∨
        (∃ b a, lmin? (candsAll tmin cl cnds l) = some b ∧ a ∈ l ∧
          b ∈ icandsOf tmin cl (cnds a) ∧ R = outF a b) := by
  induction l with
  | nil =>
    intro ha cl acc tmp R h
    simp only [scan_loop, Prod.mk.injEq] at h
    exact Or.inl ⟨rfl, h.1, h.2.symm⟩
  | cons a l ih =>
    intro ha cl acc tmp R h
    simp only [scan_loop, hq a cl tmp] at h
    rcases hm : lmin? (icandsOf tmin cl (cnds a)) with _ | t
    · -- head primitive has no candidate in (tmin, cl)
      rw [hm] at h
      simp only [if_neg (by simp : ¬((false, tmp).1 = true))] at h
      have hnil : icandsOf tmin cl (cnds a) = [] := (lmin?_eq_none_iff _).1 hm
      rcases ih ha cl acc tmp R h with ⟨h1, h2, h3⟩ | ⟨b, a2, hb, ha2, hbm, hR⟩
      · exact Or.inl ⟨by simp [candsAll, hnil, h1], h2, h3⟩
      · exact Or.inr ⟨b, a2, by simpa [candsAll, hnil] using hb,
          List.mem_cons_of_mem _ ha2, hbm, hR⟩
    · -- head primitive accepted at its minimal candidate t
      rw [hm] at h
      simp only [if_pos rfl] at h
      rw [hout a t] at h
      rcases (lmin?_eq_some_iff _ _).1 hm with ⟨htmem, htlb⟩
      rcases mem_icandsOf.1 htmem with ⟨-, htmin, htcl⟩
      rcases ih true (↑t) (outF a t) (outF a t) R h with
        ⟨h1, -, h3⟩ | ⟨b, a2, hb, ha2, hbm, hR⟩
      · -- no later candidate beat t: the global minimum is t itself
        refine Or.inr ⟨t, a, ?_, List.mem_cons_self _ _, htmem, h3⟩
        rw [lmin?_eq_some_iff]
        constructor
        · exact mem_candsAll.2 ⟨a, List.mem_cons_self _ _, htmem⟩
        · intro x hx
          rcases mem_candsAll.1 hx with ⟨a3, ha3, hxm⟩
          rcases List.mem_cons.1 ha3 with rfl | ha3
          · exact htlb x hxm
          · -- x belongs to a later primitive; x < t would contradict h1
            rcases mem_icandsOf.1 hxm with ⟨hxl, hxmin, hxcl⟩
            by_contra hlt
            push_neg at hlt
            have : x ∈ candsAll tmin (↑t) cnds l :=
              mem_candsAll.2 ⟨a3, ha3,
                mem_icandsOf.2 ⟨hxl, hxmin, by exact_mod_cast hlt⟩⟩
            simp [h1] at this
      · -- a later candidate b < t won
        rcases mem_icandsOf.1 hbm with ⟨hbl, hbmin, hbt⟩
        have hbtK : b < t := by exact_mod_cast hbt
        have hbcl : (b : WithTop K) < cl := lt_trans hbt htcl
        refine Or.inr ⟨b, a2, ?_, List.mem_cons_of_mem _ ha2,
          mem_icandsOf.2 ⟨hbl, hbmin, hbcl⟩, hR⟩
        rw [lmin?_eq_some_iff]
        constructor
        · exact mem_candsAll.2 ⟨a2, List.mem_cons_of_mem _ ha2,
            mem_icandsOf.2 ⟨hbl, hbmin, hbcl⟩⟩
        · intro x hx
          rcases mem_candsAll.1 hx with ⟨a3, ha3, hxm⟩
          rcases List.mem_cons.1 ha3 with rfl | ha3
          · exact le_trans (le_of_lt hbtK) (htlb x hxm)
          · rcases mem_icandsOf.1 hxm with ⟨hxl, hxmin, hxcl⟩
            rcases lt_or_le x t with hxt | hxt
            · have : x ∈ candsAll tmin (↑t) cnds l :=
                mem_candsAll.2 ⟨a3, ha3,
                  mem_icandsOf.2 ⟨hxl, hxmin, by exact_mod_cast hxt⟩⟩
              exact ((lmin?_eq_some_iff _ _).1 hb).2 x this
            · exact le_trans (le_of_lt hbtK) hxt

end ScanLemmas

/-! ## Primitives -/

/-- Sphere data: center, radius, material (sphere.hpp is not under src/). -/
structure sphere (K : Type) where
  center : Vec3 K
  radius : K
  mat : material_t K
deriving DecidableEq

/-- Modelled from the spec: sphere.hpp is not under src/.  §4.1 — the
intersection test solves the quadratic `dot(oc+t*d, oc+t*d) = radius²` for the
ray; the up-to-two real roots are the candidate parameters (no candidates when
the discriminant is negative).  The floating-point square root of the
discriminant is the abstract parameter `sq`. -/
def sphere_cands (sq : K → K) (s : sphere K) (r : Ray K) : List K :=
  let oc := r.orig - s.center
  let a := dot r.dir r.dir
  let half_b := dot oc r.dir
  let c := dot oc oc - s.radius * s.radius
  let disc := half_b * half_b - a * c
  if disc < 0 then []
  else [(-half_b - sq disc) / a, (-half_b + sq disc) / a]

/-- Modelled from the spec: the hit record a sphere fills for an accepted
parameter `t` — intersection point, outward normal `(p - center)/radius`, the
parameter and the sphere's material (§3, §4.1). -/
def sphere_record (s : sphere K) (r : Ray K) (t : K) : hit_record K :=
  let pt := ray_at r t
  ⟨pt, divScalar (pt - s.center) s.radius, t, s.mat⟩

/-- Modelled from the spec: `sphere::hit(r, tMin, tMax, rec)` returns the
smallest root lying strictly inside `(tMin, tMax)`, filling `rec`; on a miss it
reports false and leaves the passed record unchanged (§4.1, §4.3). -/
def sphere_hit (sq : K → K) (s : sphere K) (r : Ray K) (tmin : K)
    (tmax : WithTop K) (hr : hit_record K) : Bool × hit_record K :=
  match lmin? (icandsOf tmin tmax (sphere_cands sq s r)) with
  | some t => (true, sphere_record s r t)
  | none => (false, hr)

/-- Axis-aligned rectangle in one of the three orientations (rectangle.hpp is
not under src/; whichever orientation, two in-plane extents, the fixed third
coordinate `k` and a material). -/
inductive rectangle_t (K : Type) where
  | xy (x0 x1 y0 y1 k : K) (mat : material_t K)
  | xz (x0 x1 z0 z1 k : K) (mat : material_t K)
  | yz (y0 y1 z0 z1 k : K) (mat : material_t K)
deriving DecidableEq

def rect_mat : rectangle_t K → material_t K
  | .xy _ _ _ _ _ m => m
  | .xz _ _ _ _ _ m => m
  | .yz _ _ _ _ _ m => m

/-- The outward normal convention of the spec §4.1: the plane's fixed axis. -/
def rect_normal : rectangle_t K → Vec3 K
  | .xy _ _ _ _ _ _ => ⟨0, 0, 1⟩
  | .xz _ _ _ _ _ _ => ⟨0, 1, 0⟩
  | .yz _ _ _ _ _ _ => ⟨1, 0, 0⟩

/-- Modelled from the spec: rectangle.hpp is not under src/.  §4.1 — intersect
the ray with the plane of the fixed third coordinate; reject a parallel ray
(zero denominator) and reject when the in-plane coordinates fall outside the
two bounds; otherwise the single plane-crossing parameter is the candidate. -/
def rect_cands (rc : rectangle_t K) (r : Ray K) : List K :=
  match rc with
  | .xy x0 x1 y0 y1 k _ =>
    if r.dir.z = 0 then []
    else
      let t := (k - r.orig.z) / r.dir.z
      let px := r.orig.x + t * r.dir.x
      let py := r.orig.y + t * r.dir.y
      if x0 ≤ px ∧ px ≤ x1 ∧ y0 ≤ py ∧ py ≤ y1 then [t] else []
  | .xz x0 x1 z0 z1 k _ =>
    if r.dir.y = 0 then []
    else
      let t := (k - r.orig.y) / r.dir.y
      let px := r.orig.x + t * r.dir.x
      let pz := r.orig.z + t * r.dir.z
      if x0 ≤ px ∧ px ≤ x1 ∧ z0 ≤ pz ∧ pz ≤ z1 then [t] else []
  | .yz y0 y1 z0 z1 k _ =>
    if r.dir.x = 0 then []
    else
      let t := (k - r.orig.x) / r.dir.x
      let py := r.orig.y + t * r.dir.y
      let pz := r.orig.z + t * r.dir.z
      if y0 ≤ py ∧ py ≤ y1 ∧ z0 ≤ pz ∧ pz ≤ z1 then [t] else []

/-- The record-and-material pair a rectangle reports for an accepted `t`
(box::hit threads a `hit_record` and a `material_t` out-parameter). -/
def rect_out (rc : rectangle_t K) (r : Ray K) (t : K) :
    hit_record K × material_t K :=
  (⟨ray_at r t, rect_normal rc, t, rect_mat rc⟩, rect_mat rc)

/-- Modelled from the spec: the rectangle's `hit(r, tMin, tMax, rec, mat)` —
report the plane crossing when it lies strictly inside `(tMin, tMax)`,
otherwise leave the staged record and material unchanged (§4.1, §4.3). -/
def rect_hit (rc : rectangle_t K) (r : Ray K) (tmin : K) (cl : WithTop K)
    (st : hit_record K × material_t K) : Bool × (hit_record K × material_t K) :=
  match lmin? (icandsOf tmin cl (rect_cands rc r)) with
  | some t => (true, rect_out rc r t)
  | none => (false, st)

/-- The scan `render_kernel::hit_world` (main.cpp:67-81): scan the sphere array keeping
the closest accepted hit; each query's upper bound is the best-so-far
distance.  Returns the `hit_anything` flag and the final `rec`. -/
def hit_world (sq : K → K) (r : Ray K) (tmin : K) (tmax : WithTop K)
    (rec0 : hit_record K) (spheres : List (sphere K)) : Bool × hit_record K :=
  scan_loop (fun s cl tmp => sphere_hit sq s r tmin cl tmp) hit_record.t
    spheres false tmax rec0 dflt_rec

/-- A box: two opposite corners, a material, and the six faces created at
construction (box.hpp:7-45). -/
structure box (K : Type) where
  box_min : Vec3 K
  box_max : Vec3 K
  material_type : material_t K
  sides : List (rectangle_t K)
deriving DecidableEq

/-- The box constructor (box.hpp:10-21): eagerly decompose into the six
bounding rectangles, in source order, all carrying the box's material. -/
def box_ctor (p0 p1 : Vec3 K) (mat : material_t K) : box K :=
  ⟨p0, p1, mat,
    [.xy p0.x p1.x p0.y p1.y p1.z mat,
     .xy p0.x p1.x p0.y p1.y p0.z mat,
     .xz p0.x p1.x p0.z p1.z p1.y mat,
     .xz p0.x p1.x p0.z p1.z p0.y mat,
     .yz p0.y p1.y p0.z p1.z p1.x mat,
     .yz p0.y p1.y p0.z p1.z p0.x mat]⟩

/-- The scan `box::hit` (box.hpp:23-39): the same nearest-hit scan over the six faces,
threading the staged record and material out-parameters. -/
def box_hit (bx : box K) (r : Ray K) (tmin : K) (tmax : WithTop K)
    (rec0 : hit_record K) (mat0 : material_t K) :
    Bool × (hit_record K × material_t K) :=
  scan_loop (fun rc cl st => rect_hit rc r tmin cl st) (fun st => st.1.t)
    bx.sides false tmax (rec0, mat0) (dflt_rec, .Lambertian ⟨0, 0, 0⟩)

lemma sphere_hitQuery (sq : K → K) (r : Ray K) (tmin : K) :
    HitQuery tmin (fun s cl tmp => sphere_hit sq s r tmin cl tmp)
      (fun s => sphere_cands sq s r) (fun s t => sphere_record s r t) :=
  fun _ _ _ => rfl

lemma rect_hitQuery (r : Ray K) (tmin : K) :
    HitQuery tmin (fun rc cl st => rect_hit rc r tmin cl st)
      (fun rc => rect_cands rc r) (fun rc t => rect_out rc r t) :=
  fun _ _ _ => rfl

lemma sphere_record_t (s : sphere K) (r : Ray K) (t : K) :
    (sphere_record s r t).t = t := rfl

lemma rect_out_t (rc : rectangle_t K) (r : Ray K) (t : K) :
    (rect_out rc r t).1.t = t := rfl

section ScanCor

variable {α β : Type} {hitF : α → WithTop K → β → Bool × β} {tOf : β → K}
variable {cnds : α → List K} {outF : α → K → β} {tmin : K}

lemma candsAll_ne_nil {cl : WithTop K} {l : List α} :
    candsAll tmin cl cnds l ≠ [] ↔
      ∃ a ∈ l, icandsOf tmin cl (cnds a) ≠ [] := by
  rw [Ne, List.eq_nil_iff_forall_not_mem]
  push_neg
  constructor
  · rintro ⟨x, hx⟩
    rcases mem_candsAll.1 hx with ⟨a, hal, hxm⟩
    exact ⟨a, hal, by rw [Ne, List.eq_nil_iff_forall_not_mem]; push_neg; exact ⟨x, hxm⟩⟩
  · rintro ⟨a, hal, ha⟩
    rw [Ne, List.eq_nil_iff_forall_not_mem] at ha
    push_neg at ha
    rcases ha with ⟨x, hxm⟩
    exact ⟨x, mem_candsAll.2 ⟨a, hal, hxm⟩⟩

lemma hitF_flag_iff (hq : HitQuery tmin hitF cnds outF)
    (a : α) (cl : WithTop K) (tmp : β) :
    (hitF a cl tmp).1 = true ↔ icandsOf tmin cl (cnds a) ≠ [] := by
  rw [hq a cl tmp]
  rcases hm : lmin? (icandsOf tmin cl (cnds a)) with _ | t
  · simp [(lmin?_eq_none_iff _).1 hm]
  · have : icandsOf tmin cl (cnds a) ≠ [] := by
      intro hnil
      rw [hnil] at hm
      simp [lmin?] at hm
    simp [this]

lemma hitF_eq_true_elim (hq : HitQuery tmin hitF cnds outF)
    {a : α} {cl : WithTop K} {tmp : β} {R : β}
    (h : hitF a cl tmp = (true, R)) :
    ∃ t, lmin? (icandsOf tmin cl (cnds a)) = some t ∧ R = outF a t := by
  rw [hq a cl tmp] at h
  rcases hm : lmin? (icandsOf tmin cl (cnds a)) with _ | t
  · rw [hm] at h
    simp at h
  · rw [hm] at h
    simp only [Prod.mk.injEq] at h
    exact ⟨t, rfl, h.2.symm⟩

/-- Packaged form of the value characterisation for a scan started from a
clean state: the returned record is some primitive's own full-interval report,
at the globally minimal candidate parameter. -/
lemma scan_full (hq : HitQuery tmin hitF cnds outF)
    (hout : ∀ a t, tOf (outF a t) = t) {l : List α} {tmax : WithTop K}
    {acc tmp R : β}
    (h : scan_loop hitF tOf l false tmax acc tmp = (true, R)) :
    ∃ b a, lmin? (candsAll tmin tmax cnds l) = some b ∧ a ∈ l ∧
      lmin? (icandsOf tmin tmax (cnds a)) = some b ∧ R = outF a b := by
  rcases scan_loop_hit hq hout l false tmax acc tmp R h with
    ⟨-, hfalse, -⟩ | ⟨b, a, hb, hal, hbm, hR⟩
  · exact absurd hfalse (by simp)
  · refine ⟨b, a, hb, hal, ?_, hR⟩
    rw [lmin?_eq_some_iff]
    refine ⟨hbm, fun x hx => ?_⟩
    exact ((lmin?_eq_some_iff _ _).1 hb).2 x (mem_candsAll.2 ⟨a, hal, hx⟩)

end ScanCor

/-! ## Claim C1: the nearest-hit scan returns the globally nearest hit -/

/-- C1: For every ray, every interval `(tmin, tmax)` and every finite
collection of primitives, `hit_world` (over spheres) and `box::hit` (over the
six faces) return a hit iff some primitive reports a hit in the interval, and
the returned record is one reported by a primitive queried over the full
interval whose parametric distance is globally minimal among all primitives'
reported hits — never a farther occluded one. -/
theorem c1_nearest_hit_scan (sq : K → K) (r : Ray K) (tmin : K)
    (tmax : WithTop K) (rec0 : hit_record K) (S : List (sphere K))
    (bx : box K) (mat0 : material_t K) :
    ((hit_world sq r tmin tmax rec0 S).1 = true ↔
      ∃ s ∈ S, (sphere_hit sq s r tmin tmax rec0).1 = true)
    ∧ (∀ R, hit_world sq r tmin tmax rec0 S = (true, R) →
        (∃ s ∈ S, ∀ hr, sphere_hit sq s r tmin tmax hr = (true, R))
        ∧ ∀ s ∈ S, ∀ hr R2, sphere_hit sq s r tmin tmax hr = (true, R2) →
            R.t ≤ R2.t)
    ∧ ((box_hit bx r tmin tmax rec0 mat0).1 = true ↔
      ∃ rc ∈ bx.sides, (rect_hit rc r tmin tmax (rec0, mat0)).1 = true)
    ∧ (∀ R, box_hit bx r tmin tmax rec0 mat0 = (true, R) →
        (∃ rc ∈ bx.sides, ∀ st, rect_hit rc r tmin tmax st = (true, R))
        ∧ ∀ rc ∈ bx.sides, ∀ st R2, rect_hit rc r tmin tmax st = (true, R2) →
            R.1.t ≤ R2.1.t) := by
  have hqs := sphere_hitQuery sq r tmin
  have hqr := rect_hitQuery (K := K) r tmin
  have houts : ∀ (s : sphere K) (t : K), (sphere_record s r t).t = t :=
    fun _ _ => rfl
  have houtr : ∀ (rc : rectangle_t K) (t : K), (rect_out rc r t).1.t = t :=
    fun _ _ => rfl
  refine ⟨?_, ?_, ?_, ?_⟩
  · simp only [hit_world]
    rw [scan_loop_flag hqs, candsAll_ne_nil]
    simp only [Bool.false_eq_true, false_or]
    constructor
    · rintro ⟨s, hs, hne⟩
      exact ⟨s, hs, (hitF_flag_iff hqs s tmax rec0).2 hne⟩
    · rintro ⟨s, hs, hflag⟩
      exact ⟨s, hs, (hitF_flag_iff hqs s tmax rec0).1 hflag⟩
  · intro R h
    rcases scan_full hqs houts h with ⟨b, s, hb, hsl, hsb, hR⟩
    constructor
    · refine ⟨s, hsl, fun hr => ?_⟩
      simp only [sphere_hit]
      rw [hsb, hR]
    · intro s2 hs2 hr R2 h2
      rcases hitF_eq_true_elim hqs h2 with ⟨t2, ht2, hR2⟩
      have ht2m : t2 ∈ candsAll tmin tmax (fun s => sphere_cands sq s r) S :=
        mem_candsAll.2 ⟨s2, hs2, ((lmin?_eq_some_iff _ _).1 ht2).1⟩
      have hle := ((lmin?_eq_some_iff _ _).1 hb).2 t2 ht2m
      rw [hR, hR2]
      simpa [sphere_record_t] using hle
  · simp only [box_hit]
    rw [scan_loop_flag hqr, candsAll_ne_nil]
    simp only [Bool.false_eq_true, false_or]
    constructor
    · rintro ⟨rc, hrc, hne⟩
      exact ⟨rc, hrc, (hitF_flag_iff hqr rc tmax (rec0, mat0)).2 hne⟩
    · rintro ⟨rc, hrc, hflag⟩
      exact ⟨rc, hrc, (hitF_flag_iff hqr rc tmax (rec0, mat0)).1 hflag⟩
  · intro R h
    rcases scan_full hqr houtr h with ⟨b, rc, hb, hrcl, hrcb, hR⟩
    constructor
    · refine ⟨rc, hrcl, fun st => ?_⟩
      simp only [rect_hit]
      rw [hrcb, hR]
    · intro rc2 hrc2 st R2 h2
      rcases hitF_eq_true_elim hqr h2 with ⟨t2, ht2, hR2⟩
      have ht2m : t2 ∈ candsAll tmin tmax (fun rc => rect_cands rc r) bx.sides :=
        mem_candsAll.2 ⟨rc2, hrc2, ((lmin?_eq_some_iff _ _).1 ht2).1⟩
      have hle := ((lmin?_eq_some_iff _ _).1 hb).2 t2 ht2m
      rw [hR, hR2]
      simpa [rect_out_t] using hle

/-- Witness for C1: a scene of two concentric spheres behind each other along
the ray; the scan reports the nearer one. -/
theorem c1_witness :
    ((hit_world (K := ℚ) id ⟨⟨0, 0, -3⟩, ⟨0, 0, 1⟩⟩ 0 ⊤ dflt_rec
        [⟨⟨0, 0, 2⟩, 1, .Lambertian ⟨1, 0, 0⟩⟩,
         ⟨⟨0, 0, 0⟩, 1, .Metal ⟨1, 1, 1⟩ 0⟩]).1 = true ↔
      ∃ s ∈ [(⟨⟨0, 0, 2⟩, 1, .Lambertian ⟨1, 0, 0⟩⟩ : sphere ℚ),
             ⟨⟨0, 0, 0⟩, 1, .Metal ⟨1, 1, 1⟩ 0⟩],
        (sphere_hit id s ⟨⟨0, 0, -3⟩, ⟨0, 0, 1⟩⟩ 0 ⊤ dflt_rec).1 = true)
    ∧ (∀ R, hit_world (K := ℚ) id ⟨⟨0, 0, -3⟩, ⟨0, 0, 1⟩⟩ 0 ⊤ dflt_rec
        [⟨⟨0, 0, 2⟩, 1, .Lambertian ⟨1, 0, 0⟩⟩,
         ⟨⟨0, 0, 0⟩, 1, .Metal ⟨1, 1, 1⟩ 0⟩] = (true, R) →
        (∃ s ∈ [(⟨⟨0, 0, 2⟩, 1, .Lambertian ⟨1, 0, 0⟩⟩ : sphere ℚ),
                ⟨⟨0, 0, 0⟩, 1, .Metal ⟨1, 1, 1⟩ 0⟩],
          ∀ hr, sphere_hit id s ⟨⟨0, 0, -3⟩, ⟨0, 0, 1⟩⟩ 0 ⊤ hr = (true, R))
        ∧ ∀ s ∈ [(⟨⟨0, 0, 2⟩, 1, .Lambertian ⟨1, 0, 0⟩⟩ : sphere ℚ),
                 ⟨⟨0, 0, 0⟩, 1, .Metal ⟨1, 1, 1⟩ 0⟩],
            ∀ hr R2, sphere_hit id s ⟨⟨0, 0, -3⟩, ⟨0, 0, 1⟩⟩ 0 ⊤ hr = (true, R2) →
              R.t ≤ R2.t)
    ∧ ((box_hit (box_ctor (K := ℚ) ⟨0, 0, 0⟩ ⟨1, 1, 1⟩ (.Lambertian ⟨1, 0, 0⟩))
          ⟨⟨0, 0, -3⟩, ⟨0, 0, 1⟩⟩ 0 ⊤ dflt_rec (.Metal ⟨1, 1, 1⟩ 0)).1 = true ↔
      ∃ rc ∈ (box_ctor (K := ℚ) ⟨0, 0, 0⟩ ⟨1, 1, 1⟩ (.Lambertian ⟨1, 0, 0⟩)).sides,
        (rect_hit rc ⟨⟨0, 0, -3⟩, ⟨0, 0, 1⟩⟩ 0 ⊤
          (dflt_rec, .Metal ⟨1, 1, 1⟩ 0)).1 = true)
    ∧ (∀ R, box_hit (box_ctor (K := ℚ) ⟨0, 0, 0⟩ ⟨1, 1, 1⟩ (.Lambertian ⟨1, 0, 0⟩))
          ⟨⟨0, 0, -3⟩, ⟨0, 0, 1⟩⟩ 0 ⊤ dflt_rec (.Metal ⟨1, 1, 1⟩ 0) = (true, R) →
        (∃ rc ∈ (box_ctor (K := ℚ) ⟨0, 0, 0⟩ ⟨1, 1, 1⟩ (.Lambertian ⟨1, 0, 0⟩)).sides,
          ∀ st, rect_hit rc ⟨⟨0, 0, -3⟩, ⟨0, 0, 1⟩⟩ 0 ⊤ st = (true, R))
        ∧ ∀ rc ∈ (box_ctor (K := ℚ) ⟨0, 0, 0⟩ ⟨1, 1, 1⟩ (.Lambertian ⟨1, 0, 0⟩)).sides,
            ∀ st R2, rect_hit rc ⟨⟨0, 0, -3⟩, ⟨0, 0, 1⟩⟩ 0 ⊤ st = (true, R2) →
              R.1.t ≤ R2.1.t) :=
  c1_nearest_hit_scan id ⟨⟨0, 0, -3⟩, ⟨0, 0, 1⟩⟩ 0 ⊤ dflt_rec
    [⟨⟨0, 0, 2⟩, 1, .Lambertian ⟨1, 0, 0⟩⟩, ⟨⟨0, 0, 0⟩, 1, .Metal ⟨1, 1, 1⟩ 0⟩]
    (box_ctor ⟨0, 0, 0⟩ ⟨1, 1, 1⟩ (.Lambertian ⟨1, 0, 0⟩)) (.Metal ⟨1, 1, 1⟩ 0)

/-! ## Claim C10: the scan leaves the caller's record untouched on a miss -/

lemma hit_world_no_hit (sq : K → K) (r : Ray K) (tmin : K) (tmax : WithTop K)
    (rec0 : hit_record K) (S : List (sphere K))
    (h : (hit_world sq r tmin tmax rec0 S).1 = false) :
    (hit_world sq r tmin tmax rec0 S).2 = rec0 := by
  have hs := @scan_loop_no_hit K _ (sphere K) (hit_record K)
    (fun s cl tmp => sphere_hit sq s r tmin cl tmp) hit_record.t
    S false tmax rec0 dflt_rec h
  simp only [hit_world, hs]

lemma box_hit_no_hit (bx : box K) (r : Ray K) (tmin : K) (tmax : WithTop K)
    (rec0 : hit_record K) (mat0 : material_t K)
    (h : (box_hit bx r tmin tmax rec0 mat0).1 = false) :
    (box_hit bx r tmin tmax rec0 mat0).2 = (rec0, mat0) := by
  have hb := @scan_loop_no_hit K _ (rectangle_t K)
    (hit_record K × material_t K) (fun rc cl st => rect_hit rc r tmin cl st)
    (fun st => st.1.t) bx.sides false tmax (rec0, mat0)
    (dflt_rec, .Lambertian ⟨0, 0, 0⟩) h
  simp only [box_hit, hb]

/-- C10: when `hit_world` (or `box::hit`) reports no hit, the caller-supplied
hit record (and, for `box::hit`, the material reference) is returned
unchanged: candidate hits are staged in a temporary record and copied to the
output only when a primitive accepts a hit. -/
theorem c10_no_hit_frame (sq : K → K) (r : Ray K) (tmin : K)
    (tmax : WithTop K) (rec0 : hit_record K) (S : List (sphere K))
    (bx : box K) (mat0 : material_t K) :
    ((hit_world sq r tmin tmax rec0 S).1 = false →
      (hit_world sq r tmin tmax rec0 S).2 = rec0)
    ∧ ((box_hit bx r tmin tmax rec0 mat0).1 = false →
      (box_hit bx r tmin tmax rec0 mat0).2 = (rec0, mat0)) :=
  ⟨hit_world_no_hit sq r tmin tmax rec0 S,
   box_hit_no_hit bx r tmin tmax rec0 mat0⟩

/-- Witness for C10: a ray that misses a sphere and a box; the input record and
material come back unchanged. -/
theorem c10_witness :
    ((hit_world (K := ℚ) id ⟨⟨0, 0, 5⟩, ⟨1, 0, 0⟩⟩ 0 ⊤
        ⟨⟨9, 9, 9⟩, ⟨1, 2, 3⟩, 7, .Lambertian ⟨1, 0, 0⟩⟩
        [⟨⟨0, 0, 0⟩, 1, .Metal ⟨1, 1, 1⟩ 0⟩]).1 = false →
      (hit_world (K := ℚ) id ⟨⟨0, 0, 5⟩, ⟨1, 0, 0⟩⟩ 0 ⊤
        ⟨⟨9, 9, 9⟩, ⟨1, 2, 3⟩, 7, .Lambertian ⟨1, 0, 0⟩⟩
        [⟨⟨0, 0, 0⟩, 1, .Metal ⟨1, 1, 1⟩ 0⟩]).2 =
          ⟨⟨9, 9, 9⟩, ⟨1, 2, 3⟩, 7, .Lambertian ⟨1, 0, 0⟩⟩)
    ∧ ((box_hit (box_ctor (K := ℚ) ⟨0, 0, 0⟩ ⟨1, 1, 1⟩ (.Metal ⟨1, 1, 1⟩ 0))
          ⟨⟨0, 0, 5⟩, ⟨1, 0, 0⟩⟩ 0 ⊤
          ⟨⟨9, 9, 9⟩, ⟨1, 2, 3⟩, 7, .Lambertian ⟨1, 0, 0⟩⟩
          (.Lambertian ⟨0, 1, 0⟩)).1 = false →
      (box_hit (box_ctor (K := ℚ) ⟨0, 0, 0⟩ ⟨1, 1, 1⟩ (.Metal ⟨1, 1, 1⟩ 0))
          ⟨⟨0, 0, 5⟩, ⟨1, 0, 0⟩⟩ 0 ⊤
          ⟨⟨9, 9, 9⟩, ⟨1, 2, 3⟩, 7, .Lambertian ⟨1, 0, 0⟩⟩
          (.Lambertian ⟨0, 1, 0⟩)).2 =
        (⟨⟨9, 9, 9⟩, ⟨1, 2, 3⟩, 7, .Lambertian ⟨1, 0, 0⟩⟩,
         .Lambertian ⟨0, 1, 0⟩)) :=
  c10_no_hit_frame id ⟨⟨0, 0, 5⟩, ⟨1, 0, 0⟩⟩ 0 ⊤
    ⟨⟨9, 9, 9⟩, ⟨1, 2, 3⟩, 7, .Lambertian ⟨1, 0, 0⟩⟩
    [⟨⟨0, 0, 0⟩, 1, .Metal ⟨1, 1, 1⟩ 0⟩]
    (box_ctor ⟨0, 0, 0⟩ ⟨1, 1, 1⟩ (.Metal ⟨1, 1, 1⟩ 0)) (.Lambertian ⟨0, 1, 0⟩)

/-! ## Claim C7: traversal order -/

lemma lmin?_congr {l1 l2 : List K} (h : ∀ x, x ∈ l1 ↔ x ∈ l2) :
    lmin? l1 = lmin? l2 := by
  rcases hm : lmin? l1 with _ | m
  · have h1 : l1 = [] := (lmin?_eq_none_iff _).1 hm
    subst h1
    rcases hm2 : lmin? l2 with _ | m2
    · rfl
    · have : m2 ∈ l2 := ((lmin?_eq_some_iff _ _).1 hm2).1
      rw [← h] at this
      simp at this
  · rcases (lmin?_eq_some_iff _ _).1 hm with ⟨hmem, hlb⟩
    symm
    rw [lmin?_eq_some_iff]
    exact ⟨(h m).1 hmem, fun x hx => hlb x ((h x).2 hx)⟩

lemma bool_eq_of_iff {a b : Bool} (h : a = true ↔ b = true) : a = b := by
  cases a <;> cases b <;> simp_all

/-- Two spheres with identical geometry but different materials: both report a
hit at the same parametric distance. -/
def tieA : sphere ℚ := ⟨⟨0, 0, 0⟩, 1, .Lambertian ⟨1, 0, 0⟩⟩

def tieB : sphere ℚ := ⟨⟨0, 0, 0⟩, 1, .Metal ⟨0, 1, 0⟩ 0⟩

/-- Counterexample to C7 as stated: permuting two primitives that tie at the
same minimal parametric distance changes the returned hit record (the scan's
strict upper-bound tightening keeps the earlier primitive's record, here with
a different material). -/
theorem c7_counterexample :
    List.Perm [tieA, tieB] [tieB, tieA] ∧
      hit_world (K := ℚ) id ⟨⟨0, 0, -3⟩, ⟨0, 0, 1⟩⟩ 0 ⊤ dflt_rec [tieA, tieB] ≠
        hit_world (K := ℚ) id ⟨⟨0, 0, -3⟩, ⟨0, 0, 1⟩⟩ 0 ⊤ dflt_rec
          [tieB, tieA] := by
  constructor
  · exact List.Perm.swap tieB tieA []
  · norm_num [hit_world, scan_loop, sphere_hit, sphere_cands, sphere_record,
      ray_at, divScalar, dot, icandsOf, lmin?, List.filter, tieA, tieB,
      dflt_rec]
    exact fun hcon => material_t.noConfusion hcon

/-- C7 amended: whether a hit is reported and the reported parametric distance
are invariant under every permutation of the primitive collection; the full
outcome (record and material) is permutation-invariant provided any two
primitives that report hits at the same parametric distance report the same
record — in particular whenever the minimal distance is attained by a single
primitive.  (With ties between different records the scan keeps the earlier
primitive's record, so the full outcome can depend on the order.) -/
theorem c7_amended_order_invariance (sq : K → K) (r : Ray K) (tmin : K)
    (tmax : WithTop K) (rec0 : hit_record K) (l1 l2 : List (sphere K))
    (h : List.Perm l1 l2) :
    ((hit_world sq r tmin tmax rec0 l1).1 =
      (hit_world sq r tmin tmax rec0 l2).1)
    ∧ (∀ R1 R2, hit_world sq r tmin tmax rec0 l1 = (true, R1) →
        hit_world sq r tmin tmax rec0 l2 = (true, R2) → R1.t = R2.t)
    ∧ ((∀ s1 ∈ l1, ∀ s2 ∈ l1, ∀ h1 h2 R1 R2,
          sphere_hit sq s1 r tmin tmax h1 = (true, R1) →
          sphere_hit sq s2 r tmin tmax h2 = (true, R2) →
          R1.t = R2.t → R1 = R2) →
        hit_world sq r tmin tmax rec0 l1 = hit_world sq r tmin tmax rec0 l2) := by
  have hqs := sphere_hitQuery sq r tmin
  have houts : ∀ (s : sphere K) (t : K), (sphere_record s r t).t = t :=
    fun _ _ => rfl
  have hcm : ∀ x, x ∈ candsAll tmin tmax (fun s => sphere_cands sq s r) l1 ↔
      x ∈ candsAll tmin tmax (fun s => sphere_cands sq s r) l2 := by
    intro x
    rw [mem_candsAll, mem_candsAll]
    constructor
    · rintro ⟨s, hs, hx⟩; exact ⟨s, h.mem_iff.1 hs, hx⟩
    · rintro ⟨s, hs, hx⟩; exact ⟨s, h.mem_iff.2 hs, hx⟩
  have hlm := lmin?_congr hcm
  have hnil : candsAll tmin tmax (fun s => sphere_cands sq s r) l1 = [] ↔
      candsAll tmin tmax (fun s => sphere_cands sq s r) l2 = [] := by
    rw [← lmin?_eq_none_iff, ← lmin?_eq_none_iff, hlm]
  have hflag : (hit_world sq r tmin tmax rec0 l1).1 =
      (hit_world sq r tmin tmax rec0 l2).1 := by
    apply bool_eq_of_iff
    simp only [hit_world]
    rw [scan_loop_flag hqs, scan_loop_flag hqs]
    simp only [Bool.false_eq_true, false_or]
    exact not_iff_not.2 hnil
  refine ⟨hflag, ?_, ?_⟩
  · intro R1 R2 h1 h2
    rcases scan_full hqs houts h1 with ⟨b1, s1, hb1, -, -, hR1⟩
    rcases scan_full hqs houts h2 with ⟨b2, s2, hb2, -, -, hR2⟩
    rw [hlm, hb2] at hb1
    injection hb1 with hb
    rw [hR1, hR2, houts, houts, hb]
  · intro huniq
    cases hfl : (hit_world sq r tmin tmax rec0 l1).1 with
    | false =>
      have hfl2 : (hit_world sq r tmin tmax rec0 l2).1 = false := by
        rw [← hflag, hfl]
      have e1 := hit_world_no_hit sq r tmin tmax rec0 l1 hfl
      have e2 := hit_world_no_hit sq r tmin tmax rec0 l2 hfl2
      calc hit_world sq r tmin tmax rec0 l1
          = ((hit_world sq r tmin tmax rec0 l1).1,
             (hit_world sq r tmin tmax rec0 l1).2) := rfl
        _ = (false, rec0) := by rw [hfl, e1]
        _ = ((hit_world sq r tmin tmax rec0 l2).1,
             (hit_world sq r tmin tmax rec0 l2).2) := by rw [hfl2, e2]
        _ = hit_world sq r tmin tmax rec0 l2 := rfl
    | true =>
      have hfl2 : (hit_world sq r tmin tmax rec0 l2).1 = true := by
        rw [← hflag, hfl]
      have h1 : hit_world sq r tmin tmax rec0 l1 =
          (true, (hit_world sq r tmin tmax rec0 l1).2) := by
        rw [← hfl]
      have h2 : hit_world sq r tmin tmax rec0 l2 =
          (true, (hit_world sq r tmin tmax rec0 l2).2) := by
        rw [← hfl2]
      rcases scan_full hqs houts h1 with ⟨b1, s1, hb1, hs1, hsb1, hR1⟩
      rcases scan_full hqs houts h2 with ⟨b2, s2, hb2, hs2, hsb2, hR2⟩
      rw [hlm, hb2] at hb1
      injection hb1 with hb
      subst hb
      have hhit1 : sphere_hit sq s1 r tmin tmax dflt_rec =
          (true, (hit_world sq r tmin tmax rec0 l1).2) := by
        simp only [sphere_hit]
        rw [hsb1, hR1]
      have hhit2 : sphere_hit sq s2 r tmin tmax dflt_rec =
          (true, (hit_world sq r tmin tmax rec0 l2).2) := by
        simp only [sphere_hit]
        rw [hsb2, hR2]
      have hrec := huniq s1 hs1 s2 (h.mem_iff.2 hs2) dflt_rec dflt_rec _ _
        hhit1 hhit2 (by rw [hR1, hR2, houts, houts])
      rw [h1, h2, hrec]

/-- Witness for the amended C7: two distinct spheres, scanned in both orders. -/
theorem c7_amended_witness :
    ((hit_world (K := ℚ) id ⟨⟨0, 0, -3⟩, ⟨0, 0, 1⟩⟩ 0 ⊤ dflt_rec
        [⟨⟨0, 0, 2⟩, 1, .Lambertian ⟨1, 0, 0⟩⟩,
         ⟨⟨0, 0, 0⟩, 1, .Metal ⟨1, 1, 1⟩ 0⟩]).1 =
      (hit_world (K := ℚ) id ⟨⟨0, 0, -3⟩, ⟨0, 0, 1⟩⟩ 0 ⊤ dflt_rec
        [⟨⟨0, 0, 0⟩, 1, .Metal ⟨1, 1, 1⟩ 0⟩,
         ⟨⟨0, 0, 2⟩, 1, .Lambertian ⟨1, 0, 0⟩⟩]).1)
    ∧ (∀ R1 R2,
        hit_world (K := ℚ) id ⟨⟨0, 0, -3⟩, ⟨0, 0, 1⟩⟩ 0 ⊤ dflt_rec
          [⟨⟨0, 0, 2⟩, 1, .Lambertian ⟨1, 0, 0⟩⟩,
           ⟨⟨0, 0, 0⟩, 1, .Metal ⟨1, 1, 1⟩ 0⟩] = (true, R1) →
        hit_world (K := ℚ) id ⟨⟨0, 0, -3⟩, ⟨0, 0, 1⟩⟩ 0 ⊤ dflt_rec
          [⟨⟨0, 0, 0⟩, 1, .Metal ⟨1, 1, 1⟩ 0⟩,
           ⟨⟨0, 0, 2⟩, 1, .Lambertian ⟨1, 0, 0⟩⟩] = (true, R2) →
        R1.t = R2.t)
    ∧ ((∀ s1 ∈ [(⟨⟨0, 0, 2⟩, 1, .Lambertian ⟨1, 0, 0⟩⟩ : sphere ℚ),
                ⟨⟨0, 0, 0⟩, 1, .Metal ⟨1, 1, 1⟩ 0⟩],
        ∀ s2 ∈ [(⟨⟨0, 0, 2⟩, 1, .Lambertian ⟨1, 0, 0⟩⟩ : sphere ℚ),
                ⟨⟨0, 0, 0⟩, 1, .Metal ⟨1, 1, 1⟩ 0⟩],
        ∀ h1 h2 R1 R2,
          sphere_hit id s1 ⟨⟨0, 0, -3⟩, ⟨0, 0, 1⟩⟩ 0 ⊤ h1 = (true, R1) →
          sphere_hit id s2 ⟨⟨0, 0, -3⟩, ⟨0, 0, 1⟩⟩ 0 ⊤ h2 = (true, R2) →
          R1.t = R2.t → R1 = R2) →
        hit_world (K := ℚ) id ⟨⟨0, 0, -3⟩, ⟨0, 0, 1⟩⟩ 0 ⊤ dflt_rec
          [⟨⟨0, 0, 2⟩, 1, .Lambertian ⟨1, 0, 0⟩⟩,
           ⟨⟨0, 0, 0⟩, 1, .Metal ⟨1, 1, 1⟩ 0⟩] =
        hit_world (K := ℚ) id ⟨⟨0, 0, -3⟩, ⟨0, 0, 1⟩⟩ 0 ⊤ dflt_rec
          [⟨⟨0, 0, 0⟩, 1, .Metal ⟨1, 1, 1⟩ 0⟩,
           ⟨⟨0, 0, 2⟩, 1, .Lambertian ⟨1, 0, 0⟩⟩]) :=
  c7_amended_order_invariance id ⟨⟨0, 0, -3⟩, ⟨0, 0, 1⟩⟩ 0 ⊤ dflt_rec
    [⟨⟨0, 0, 2⟩, 1, .Lambertian ⟨1, 0, 0⟩⟩, ⟨⟨0, 0, 0⟩, 1, .Metal ⟨1, 1, 1⟩ 0⟩]
    [⟨⟨0, 0, 0⟩, 1, .Metal ⟨1, 1, 1⟩ 0⟩, ⟨⟨0, 0, 2⟩, 1, .Lambertian ⟨1, 0, 0⟩⟩]
    (List.Perm.swap _ _ _)

/-! ## The path integrator (render_kernel::color, main.cpp:83-108) -/

/-- Source `reflect(v, n) = v - 2 dot(v,n) n`. -/
def reflect (v n : Vec3 K) : Vec3 K := v - (2 * dot v n) • n

/-- Modelled from the spec: hitable.hpp / material code is not under src/.
§4.2 — Lambertian always scatters: direction = hit normal + random unit
vector, attenuation = albedo; Metal: direction = reflect(incoming, normal) +
fuzz · random-in-unit-sphere, attenuation = albedo, treated as absorbed when
the scattered direction does not point away from the surface (dot ≤ 0).  The
per-bounce random draw is the parameter `rnd`. -/
def scatter (rnd : Vec3 K) (r_in : Ray K) (hr : hit_record K) :
    Option (Vec3 K × Ray K) :=
  match hr.mat with
  | .Lambertian albedo => some (albedo, ⟨hr.p, hr.normal + rnd⟩)
  | .Metal albedo fuzz =>
    let reflected := reflect r_in.dir hr.normal
    let dir := reflected + fuzz • rnd
    if 0 < dot dir hr.normal then some (albedo, ⟨hr.p, dir⟩) else none

/-- The iterative bounce loop of `render_kernel::color` (main.cpp:83-108),
written as fuel recursion on the remaining depth: each iteration scans the
scene over `(0.001, infinity)`; on a scattering hit it multiplies the running
attenuation and continues with the scattered ray; on absorption it returns
black; on a miss it returns the attenuation times the background gradient;
exhausted fuel returns black (main.cpp:107). -/
def colorAux (sq : K → K) (S : List (sphere K)) :
    (ℕ → Vec3 K) → Ray K → Vec3 K → ℕ → Vec3 K
  | _, _, _, 0 => ⟨0, 0, 0⟩
  | rnd, r, att, d + 1 =>
    let hw := hit_world sq r (1 / 1000) ⊤ dflt_rec S
    if hw.1 then
      match scatter (rnd 0) r hw.2 with
      | some as => colorAux sq S (fun i => rnd (i + 1)) as.2 (att * as.1) d
      | none => ⟨0, 0, 0⟩
    else
      let unit_direction := unit_vector sq r.dir
      let hit_pt := (1 / 2) * (unit_direction.y + 1)
      att * ((1 - hit_pt) • (⟨1, 1, 1⟩ : Vec3 K) + hit_pt • ⟨1 / 2, 7 / 10, 1⟩)

/-- The integrator `render_kernel::color`: the bounce loop started with attenuation (1,1,1). -/
def color (sq : K → K) (S : List (sphere K)) (rnd : ℕ → Vec3 K) (r : Ray K)
    (max_depth : ℕ) : Vec3 K :=
  colorAux sq S rnd r ⟨1, 1, 1⟩ max_depth

/-- One iteration of the bounce loop viewed as a state transformer: `some` of
the next (ray, attenuation) when the scan hits and the material scatters,
`none` when the ray escapes or is absorbed. -/
def pathStep (sq : K → K) (S : List (sphere K)) (rnd0 : Vec3 K)
    (p : Ray K × Vec3 K) : Option (Ray K × Vec3 K) :=
  let hw := hit_world sq p.1 (1 / 1000) ⊤ dflt_rec S
  if hw.1 then
    match scatter rnd0 p.1 hw.2 with
    | some as => some (as.2, p.2 * as.1)
    | none => none
  else none

/-- Exactly `d` consecutive successful (hit-and-scatter) iterations of the loop. -/
def pathSteps (sq : K → K) (S : List (sphere K)) :
    (ℕ → Vec3 K) → ℕ → Ray K × Vec3 K → Option (Ray K × Vec3 K)
  | _, 0, p => some p
  | rnd, d + 1, p =>
    match pathStep sq S (rnd 0) p with
    | some p2 => pathSteps sq S (fun i => rnd (i + 1)) d p2
    | none => none

lemma colorAux_step (sq : K → K) (S : List (sphere K)) (rnd : ℕ → Vec3 K)
    (r : Ray K) (att : Vec3 K) (d : ℕ) (r2 : Ray K) (att2 : Vec3 K)
    (h : pathStep sq S (rnd 0) (r, att) = some (r2, att2)) :
    colorAux sq S rnd r att (d + 1) =
      colorAux sq S (fun i => rnd (i + 1)) r2 att2 d := by
  simp only [pathStep] at h
  cases hw : (hit_world sq r (1 / 1000) ⊤ dflt_rec S).1 with
  | false =>
    rw [hw] at h
    rw [if_neg Bool.false_ne_true] at h
    exact absurd h (by simp)
  | true =>
    rw [hw, if_pos rfl] at h
    simp only [colorAux]
    rw [hw, if_pos rfl]
    rcases hs : scatter (rnd 0) r (hit_world sq r (1 / 1000) ⊤ dflt_rec S).2
      with _ | as
    · rw [hs] at h
      exact absurd h (by simp)
    · rw [hs] at h
      simp only [Option.some.injEq, Prod.mk.injEq] at h
      rw [← h.1, ← h.2]

/-- C3 induction core: if all `d` remaining iterations hit and scatter, the
loop exits by fuel exhaustion and returns black. -/
lemma colorAux_exhaust (sq : K → K) (S : List (sphere K)) (d : ℕ) :
    ∀ (rnd : ℕ → Vec3 K) (r : Ray K) (att : Vec3 K),
      (pathSteps sq S rnd d (r, att)).isSome = true →
      colorAux sq S rnd r att d = ⟨0, 0, 0⟩ := by
  induction d with
  | zero => intro rnd r att _; rfl
  | succ d ih =>
    intro rnd r att h
    simp only [pathSteps] at h
    rcases hp : pathStep sq S (rnd 0) (r, att) with _ | p2
    · rw [hp] at h
      simp at h
    · rw [hp] at h
      rw [colorAux_step sq S rnd r att d p2.1 p2.2 (by rw [hp])]
      exact ih (fun i => rnd (i + 1)) p2.1 p2.2 h

/-! ## Claim C2: structure of one integrator iteration -/

/-- C2: for every camera ray, at each iteration the integrator performs a
nearest-hit scan with lower bound exactly 0.001 and upper bound +infinity; on
a hit whose material scatters it multiplies the running attenuation by the
returned attenuation and continues with the scattered ray as the new current
ray; on a hit whose material signals absorption it terminates immediately
with pure black.  (The loop runs at most `max_depth` times by construction of
the fuel recursion.) -/
theorem c2_integrator_iteration (sq : K → K) (S : List (sphere K))
    (rnd : ℕ → Vec3 K) (r : Ray K) (att : Vec3 K) (d : ℕ)
    (h : (hit_world sq r (1 / 1000) ⊤ dflt_rec S).1 = true) :
    (∀ a s2, scatter (rnd 0) r (hit_world sq r (1 / 1000) ⊤ dflt_rec S).2 =
        some (a, s2) →
      colorAux sq S rnd r att (d + 1) =
        colorAux sq S (fun i => rnd (i + 1)) s2 (att * a) d)
    ∧ (scatter (rnd 0) r (hit_world sq r (1 / 1000) ⊤ dflt_rec S).2 = none →
      colorAux sq S rnd r att (d + 1) = ⟨0, 0, 0⟩) := by
  constructor
  · intro a s2 hs
    simp only [colorAux]
    rw [h, if_pos rfl, hs]
  · intro hs
    simp only [colorAux]
    rw [h, if_pos rfl, hs]

/-- Witness for C2: a single Lambertian sphere hit by the ray. -/
theorem c2_witness :
    (∀ (a : Vec3 ℚ) (s2 : Ray ℚ),
      scatter (⟨0, 0, -1⟩ : Vec3 ℚ) ⟨⟨0, 0, -3⟩, ⟨0, 0, 1⟩⟩
          (hit_world (K := ℚ) id ⟨⟨0, 0, -3⟩, ⟨0, 0, 1⟩⟩ (1 / 1000) ⊤ dflt_rec
            [tieA]).2 = some (a, s2) →
        colorAux (K := ℚ) id [tieA] (fun _ => ⟨0, 0, -1⟩)
            ⟨⟨0, 0, -3⟩, ⟨0, 0, 1⟩⟩ ⟨1, 1, 1⟩ (1 + 1) =
          colorAux (K := ℚ) id [tieA] (fun _ => ⟨0, 0, -1⟩) s2
            ((⟨1, 1, 1⟩ : Vec3 ℚ) * a) 1)
    ∧ (scatter (⟨0, 0, -1⟩ : Vec3 ℚ) ⟨⟨0, 0, -3⟩, ⟨0, 0, 1⟩⟩
          (hit_world (K := ℚ) id ⟨⟨0, 0, -3⟩, ⟨0, 0, 1⟩⟩ (1 / 1000) ⊤ dflt_rec
            [tieA]).2 = none →
        colorAux (K := ℚ) id [tieA] (fun _ => ⟨0, 0, -1⟩)
            ⟨⟨0, 0, -3⟩, ⟨0, 0, 1⟩⟩ ⟨1, 1, 1⟩ (1 + 1) = ⟨0, 0, 0⟩) :=
  c2_integrator_iteration id [tieA] (fun _ => ⟨0, 0, -1⟩)
    ⟨⟨0, 0, -3⟩, ⟨0, 0, 1⟩⟩ ⟨1, 1, 1⟩ 1
    (by norm_num [hit_world, scan_loop, sphere_hit, sphere_cands, dot,
      icandsOf, lmin?, List.filter, tieA])

/-! ## Claim C3: depth exhaustion returns exactly black -/

/-- C3: if the bounce loop completes all `max_depth` iterations with every
iteration hitting and scattering (no escape to the background, no
absorption), the integrator returns exactly black (0,0,0) — a defined
termination, not an error. -/
theorem c3_depth_exhaustion (sq : K → K) (S : List (sphere K))
    (rnd : ℕ → Vec3 K) (r : Ray K) (max_depth : ℕ)
    (h : (pathSteps sq S rnd max_depth (r, ⟨1, 1, 1⟩)).isSome = true) :
    color sq S rnd r max_depth = ⟨0, 0, 0⟩ :=
  colorAux_exhaust sq S max_depth rnd r ⟨1, 1, 1⟩ h

/-- Witness for C3: a Lambertian sphere that the ray (and its scattered
successor) keeps hitting for two bounces. -/
theorem c3_witness :
    color (K := ℚ) id [tieA] (fun _ => ⟨0, 0, -1⟩) ⟨⟨0, 0, -3⟩, ⟨0, 0, 1⟩⟩
      (1 + 1) = ⟨0, 0, 0⟩ :=
  c3_depth_exhaustion id [tieA] (fun _ => ⟨0, 0, -1⟩) ⟨⟨0, 0, -3⟩, ⟨0, 0, 1⟩⟩
    (1 + 1)
    (by norm_num [pathSteps, pathStep, hit_world, scan_loop, sphere_hit,
      sphere_cands, sphere_record, ray_at, divScalar, dot, icandsOf, lmin?,
      List.filter, tieA, scatter, dflt_rec])

/-! ## Claim C4: the background gradient -/

/-- C4: a ray that escapes the scene returns the accumulated attenuation times
the vertical gradient `(1-h)·(1,1,1) + h·(0.5,0.7,1.0)` with
`h = 0.5·(d_y + 1)` in the normalized y-direction component; a +y ray yields
the top color (0.5,0.7,1.0) and a −y ray the bottom color (1,1,1). -/
theorem c4_background_gradient (S : List (sphere ℝ)) (rnd : ℕ → Vec3 ℝ)
    (r : Ray ℝ) (att : Vec3 ℝ) (d : ℕ)
    (h : (hit_world Real.sqrt r (1 / 1000) ⊤ dflt_rec S).1 = false) :
    (colorAux Real.sqrt S rnd r att (d + 1) =
      att * ((1 - (1 / 2) * ((unit_vector Real.sqrt r.dir).y + 1)) •
          (⟨1, 1, 1⟩ : Vec3 ℝ) +
        ((1 / 2) * ((unit_vector Real.sqrt r.dir).y + 1)) • ⟨1 / 2, 7 / 10, 1⟩))
    ∧ (r.dir = ⟨0, 1, 0⟩ →
        colorAux Real.sqrt S rnd r att (d + 1) = att * ⟨1 / 2, 7 / 10, 1⟩)
    ∧ (r.dir = ⟨0, -1, 0⟩ →
        colorAux Real.sqrt S rnd r att (d + 1) = att * ⟨1, 1, 1⟩) := by
  have hmain : colorAux Real.sqrt S rnd r att (d + 1) =
      att * ((1 - (1 / 2) * ((unit_vector Real.sqrt r.dir).y + 1)) •
          (⟨1, 1, 1⟩ : Vec3 ℝ) +
        ((1 / 2) * ((unit_vector Real.sqrt r.dir).y + 1)) • ⟨1 / 2, 7 / 10, 1⟩) := by
    simp only [colorAux]
    rw [h, if_neg Bool.false_ne_true]
  refine ⟨hmain, ?_, ?_⟩
  · intro hdir
    have huv : unit_vector Real.sqrt (⟨0, 1, 0⟩ : Vec3 ℝ) = ⟨0, 1, 0⟩ := by
      simp only [unit_vector, dot, divScalar]
      norm_num
    rw [hmain, hdir, huv]
    norm_num [Vec3.mk.injEq]
  · intro hdir
    have huv : unit_vector Real.sqrt (⟨0, -1, 0⟩ : Vec3 ℝ) = ⟨0, -1, 0⟩ := by
      simp only [unit_vector, dot, divScalar]
      norm_num
    rw [hmain, hdir, huv]
    norm_num [Vec3.mk.injEq]

/-- Witness for C4: the empty scene misses every ray; a +y camera ray. -/
theorem c4_witness :
    (colorAux Real.sqrt [] (fun _ => ⟨0, 0, 0⟩) ⟨⟨0, 0, 0⟩, ⟨0, 1, 0⟩⟩
        ⟨1, 1, 1⟩ (0 + 1) =
      (⟨1, 1, 1⟩ : Vec3 ℝ) *
        ((1 - (1 / 2) *
            ((unit_vector Real.sqrt (⟨0, 1, 0⟩ : Vec3 ℝ)).y + 1)) •
          (⟨1, 1, 1⟩ : Vec3 ℝ) +
        ((1 / 2) * ((unit_vector Real.sqrt (⟨0, 1, 0⟩ : Vec3 ℝ)).y + 1)) •
          ⟨1 / 2, 7 / 10, 1⟩))
    ∧ ((⟨0, 1, 0⟩ : Vec3 ℝ) = ⟨0, 1, 0⟩ →
        colorAux Real.sqrt [] (fun _ => ⟨0, 0, 0⟩) ⟨⟨0, 0, 0⟩, ⟨0, 1, 0⟩⟩
          ⟨1, 1, 1⟩ (0 + 1) = (⟨1, 1, 1⟩ : Vec3 ℝ) * ⟨1 / 2, 7 / 10, 1⟩)
    ∧ ((⟨0, 1, 0⟩ : Vec3 ℝ) = ⟨0, -1, 0⟩ →
        colorAux Real.sqrt [] (fun _ => ⟨0, 0, 0⟩) ⟨⟨0, 0, 0⟩, ⟨0, 1, 0⟩⟩
          ⟨1, 1, 1⟩ (0 + 1) = (⟨1, 1, 1⟩ : Vec3 ℝ) * ⟨1, 1, 1⟩) :=
  c4_background_gradient [] (fun _ => ⟨0, 0, 0⟩) ⟨⟨0, 0, 0⟩, ⟨0, 1, 0⟩⟩
    ⟨1, 1, 1⟩ 0 rfl

/-! ## Claim C9: the box constructor and its bounding invariant -/

/-- The point set of a face: the in-plane coordinates within the two bounds
and the third coordinate on the plane (spec §4.1). -/
def onRect (rc : rectangle_t K) (q : Vec3 K) : Prop :=
  match rc with
  | .xy x0 x1 y0 y1 k _ =>
    x0 ≤ q.x ∧ q.x ≤ x1 ∧ y0 ≤ q.y ∧ q.y ≤ y1 ∧ q.z = k
  | .xz x0 x1 z0 z1 k _ =>
    x0 ≤ q.x ∧ q.x ≤ x1 ∧ z0 ≤ q.z ∧ q.z ≤ z1 ∧ q.y = k
  | .yz y0 y1 z0 z1 k _ =>
    y0 ≤ q.y ∧ q.y ≤ y1 ∧ z0 ≤ q.z ∧ q.z ≤ z1 ∧ q.x = k

instance (rc : rectangle_t K) (q : Vec3 K) : Decidable (onRect rc q) :=
  match rc with
  | .xy x0 x1 y0 y1 k _ => inferInstanceAs
      (Decidable (x0 ≤ q.x ∧ q.x ≤ x1 ∧ y0 ≤ q.y ∧ q.y ≤ y1 ∧ q.z = k))
  | .xz x0 x1 z0 z1 k _ => inferInstanceAs
      (Decidable (x0 ≤ q.x ∧ q.x ≤ x1 ∧ z0 ≤ q.z ∧ q.z ≤ z1 ∧ q.y = k))
  | .yz y0 y1 z0 z1 k _ => inferInstanceAs
      (Decidable (y0 ≤ q.y ∧ q.y ≤ y1 ∧ z0 ≤ q.z ∧ q.z ≤ z1 ∧ q.x = k))

/-- Membership in the closed rectangular volume `[p0, p1]`. -/
def inCuboid (p0 p1 q : Vec3 K) : Prop :=
  p0.x ≤ q.x ∧ q.x ≤ p1.x ∧ p0.y ≤ q.y ∧ q.y ≤ p1.y ∧
    p0.z ≤ q.z ∧ q.z ≤ p1.z

instance (p0 p1 q : Vec3 K) : Decidable (inCuboid p0 p1 q) :=
  inferInstanceAs (Decidable (p0.x ≤ q.x ∧ q.x ≤ p1.x ∧ p0.y ≤ q.y ∧
    q.y ≤ p1.y ∧ p0.z ≤ q.z ∧ q.z ≤ p1.z))

/-- The topological boundary of the rectangular volume: inside the closed
volume and extremal in some coordinate. -/
def onCuboidBoundary (p0 p1 q : Vec3 K) : Prop :=
  inCuboid p0 p1 q ∧
    (q.x = p0.x ∨ q.x = p1.x ∨ q.y = p0.y ∨ q.y = p1.y ∨
     q.z = p0.z ∨ q.z = p1.z)

instance (p0 p1 q : Vec3 K) : Decidable (onCuboidBoundary p0 p1 q) :=
  inferInstanceAs (Decidable (_ ∧ _))

/-- C9: for corner points `p0 ≤ p1` (componentwise) the box constructor
creates exactly the six axis-aligned rectangles of the source order — two
xy-faces at `z = p1.z` and `z = p0.z`, two xz-faces at `y = p1.y` and
`y = p0.y`, two yz-faces at `x = p1.x` and `x = p0.x`, spanning the
corresponding extents — all carrying the box's material, and the union of the
six faces is exactly the boundary of the rectangular volume `[p0, p1]`. -/
theorem c9_box_construction (p0 p1 : Vec3 K) (mat : material_t K) (q : Vec3 K)
    (h : p0.x ≤ p1.x ∧ p0.y ≤ p1.y ∧ p0.z ≤ p1.z) :
    (box_ctor p0 p1 mat).sides =
      [.xy p0.x p1.x p0.y p1.y p1.z mat, .xy p0.x p1.x p0.y p1.y p0.z mat,
       .xz p0.x p1.x p0.z p1.z p1.y mat, .xz p0.x p1.x p0.z p1.z p0.y mat,
       .yz p0.y p1.y p0.z p1.z p1.x mat, .yz p0.y p1.y p0.z p1.z p0.x mat]
    ∧ (box_ctor p0 p1 mat).sides.length = 6
    ∧ (∀ rc ∈ (box_ctor p0 p1 mat).sides, rect_mat rc = mat)
    ∧ ((∃ rc ∈ (box_ctor p0 p1 mat).sides, onRect rc q) ↔
        onCuboidBoundary p0 p1 q) := by
  refine ⟨rfl, rfl, ?_, ?_⟩
  · intro rc hrc
    simp only [box_ctor, List.mem_cons, List.not_mem_nil, or_false] at hrc
    rcases hrc with rfl | rfl | rfl | rfl | rfl | rfl <;> rfl
  · constructor
    · rintro ⟨rc, hrc, hon⟩
      simp only [box_ctor, List.mem_cons, List.not_mem_nil, or_false] at hrc
      rcases hrc with rfl | rfl | rfl | rfl | rfl | rfl
      · rcases hon with ⟨h1, h2, h3, h4, h5⟩
        exact ⟨⟨h1, h2, h3, h4, h5 ▸ h.2.2, le_of_eq h5⟩,
          Or.inr (Or.inr (Or.inr (Or.inr (Or.inr h5))))⟩
      · rcases hon with ⟨h1, h2, h3, h4, h5⟩
        exact ⟨⟨h1, h2, h3, h4, le_of_eq h5.symm, h5 ▸ h.2.2⟩,
          Or.inr (Or.inr (Or.inr (Or.inr (Or.inl h5))))⟩
      · rcases hon with ⟨h1, h2, h3, h4, h5⟩
        exact ⟨⟨h1, h2, h5 ▸ h.2.1, le_of_eq h5, h3, h4⟩,
          Or.inr (Or.inr (Or.inr (Or.inl h5)))⟩
      · rcases hon with ⟨h1, h2, h3, h4, h5⟩
        exact ⟨⟨h1, h2, le_of_eq h5.symm, h5 ▸ h.2.1, h3, h4⟩,
          Or.inr (Or.inr (Or.inl h5))⟩
      · rcases hon with ⟨h1, h2, h3, h4, h5⟩
        exact ⟨⟨h5 ▸ h.1, le_of_eq h5, h1, h2, h3, h4⟩, Or.inr (Or.inl h5)⟩
      · rcases hon with ⟨h1, h2, h3, h4, h5⟩
        exact ⟨⟨le_of_eq h5.symm, h5 ▸ h.1, h1, h2, h3, h4⟩, Or.inl h5⟩
    · rintro ⟨⟨hx0, hx1, hy0, hy1, hz0, hz1⟩, hext⟩
      rcases hext with he | he | he | he | he | he
      · exact ⟨.yz p0.y p1.y p0.z p1.z p0.x mat, by simp [box_ctor],
          ⟨hy0, hy1, hz0, hz1, he⟩⟩
      · exact ⟨.yz p0.y p1.y p0.z p1.z p1.x mat, by simp [box_ctor],
          ⟨hy0, hy1, hz0, hz1, he⟩⟩
      · exact ⟨.xz p0.x p1.x p0.z p1.z p0.y mat, by simp [box_ctor],
          ⟨hx0, hx1, hz0, hz1, he⟩⟩
      · exact ⟨.xz p0.x p1.x p0.z p1.z p1.y mat, by simp [box_ctor],
          ⟨hx0, hx1, hz0, hz1, he⟩⟩
      · exact ⟨.xy p0.x p1.x p0.y p1.y p0.z mat, by simp [box_ctor],
          ⟨hx0, hx1, hy0, hy1, he⟩⟩
      · exact ⟨.xy p0.x p1.x p0.y p1.y p1.z mat, by simp [box_ctor],
          ⟨hx0, hx1, hy0, hy1, he⟩⟩

/-- Witness for C9: the unit cube and a point on its `x = 1` face. -/
theorem c9_witness :
    (box_ctor (K := ℚ) ⟨0, 0, 0⟩ ⟨1, 1, 1⟩ (.Lambertian ⟨1, 0, 0⟩)).sides =
      [.xy 0 1 0 1 1 (.Lambertian ⟨1, 0, 0⟩), .xy 0 1 0 1 0 (.Lambertian ⟨1, 0, 0⟩),
       .xz 0 1 0 1 1 (.Lambertian ⟨1, 0, 0⟩), .xz 0 1 0 1 0 (.Lambertian ⟨1, 0, 0⟩),
       .yz 0 1 0 1 1 (.Lambertian ⟨1, 0, 0⟩), .yz 0 1 0 1 0 (.Lambertian ⟨1, 0, 0⟩)]
    ∧ (box_ctor (K := ℚ) ⟨0, 0, 0⟩ ⟨1, 1, 1⟩
        (.Lambertian ⟨1, 0, 0⟩)).sides.length = 6
    ∧ (∀ rc ∈ (box_ctor (K := ℚ) ⟨0, 0, 0⟩ ⟨1, 1, 1⟩
        (.Lambertian ⟨1, 0, 0⟩)).sides, rect_mat rc = .Lambertian ⟨1, 0, 0⟩)
    ∧ ((∃ rc ∈ (box_ctor (K := ℚ) ⟨0, 0, 0⟩ ⟨1, 1, 1⟩
          (.Lambertian ⟨1, 0, 0⟩)).sides, onRect rc ⟨1, 1 / 2, 1 / 2⟩) ↔
        onCuboidBoundary (⟨0, 0, 0⟩ : Vec3 ℚ) ⟨1, 1, 1⟩ ⟨1, 1 / 2, 1 / 2⟩) :=
  c9_box_construction ⟨0, 0, 0⟩ ⟨1, 1, 1⟩ (.Lambertian ⟨1, 0, 0⟩)
    ⟨1, 1 / 2, 1 / 2⟩ (by norm_num)

/-! ## Claim C6: the image encoder (save_image, main.cpp:172-186) -/

section SaveImage

variable [FloorRing K]

/-- Source `std::clamp(v, lo, hi)`. -/
def clampK (v lo hi : K) : K := min (max v lo) hi

/-- Source `static_cast<int>`: truncation toward zero. -/
def truncInt (x : K) : ℤ := if 0 ≤ x then ⌊x⌋ else -⌊-x⌋

/-- One channel of `save_image`:
`static_cast<int>(256 * std::clamp(sqrt(c), 0.0, 0.999))` (main.cpp:180-182);
the floating-point sqrt is the parameter `sq`. -/
def quantize (sq : K → K) (c : K) : ℤ :=
  truncInt (256 * clampK (sq c) 0 (999 / 1000))

/-- The gamma-correction stage (square root, gamma 2.0). -/
def gamma_correct (sq : K → K) (c : K) : K := sq c

/-- The clamping stage, to [0, 0.999]. -/
def clamp_channel (v : K) : K := clampK v 0 (999 / 1000)

/-- The scaling stage, by 256. -/
def scale256 (v : K) : K := 256 * v

/-- The triple of quantized channels of one pixel. -/
def pixel_triple (sq : K → K) (v : Vec3 K) : ℤ × ℤ × ℤ :=
  (quantize sq v.x, quantize sq v.y, quantize sq v.z)

/-- One row of `save_image`: x ascending from 0 to width-1, reading the frame
buffer at linear index `y * width + x` (main.cpp:178-183). -/
def save_row (sq : K → K) (w : ℕ) (fb : ℕ → Vec3 K) (y : ℕ) :
    List (ℤ × ℤ × ℤ) :=
  (List.range w).map (fun x => pixel_triple sq (fb (y * w + x)))

/-- The encoder `save_image` emits rows with y descending from height-1 to 0
(main.cpp:177). -/
def save_image (sq : K → K) (w : ℕ) (fb : ℕ → Vec3 K) : ℕ → List (ℤ × ℤ × ℤ)
  | 0 => []
  | y + 1 => save_row sq w fb y ++ save_image sq w fb y

lemma save_row_length (sq : K → K) (w : ℕ) (fb : ℕ → Vec3 K) (y : ℕ) :
    (save_row sq w fb y).length = w := by
  simp [save_row]

lemma save_row_get (sq : K → K) (w : ℕ) (fb : ℕ → Vec3 K) (y x : ℕ)
    (hx : x < w) :
    (save_row sq w fb y).get? x = some (pixel_triple sq (fb (y * w + x))) := by
  rw [save_row, List.get?_map, List.get?_range hx]
  rfl

lemma save_image_get (sq : K → K) (w : ℕ) (fb : ℕ → Vec3 K) (x : ℕ)
    (hx : x < w) :
    ∀ hgt y, y < hgt →
      (save_image sq w fb hgt).get? ((hgt - 1 - y) * w + x) =
        some (pixel_triple sq (fb (y * w + x))) := by
  intro hgt
  induction hgt with
  | zero => intro y hy; omega
  | succ n ih =>
    intro y hy
    simp only [save_image]
    rcases Nat.lt_succ_iff_lt_or_eq.1 hy with hyn | rfl
    · have h1 : n + 1 - 1 - y = (n - 1 - y) + 1 := by omega
      have h2 : ((n - 1 - y) + 1) * w + x = (n - 1 - y) * w + x + w := by
        rw [Nat.succ_mul]
        omega
      rw [h1, h2, List.get?_append_right (by rw [save_row_length]; omega)]
      rw [save_row_length]
      have h3 : (n - 1 - y) * w + x + w - w = (n - 1 - y) * w + x := by omega
      rw [h3]
      exact ih y hyn
    · have h1 : (y + 1 - 1 - y) * w + x = x := by
        have : y + 1 - 1 - y = 0 := by omega
        rw [this, Nat.zero_mul, Nat.zero_add]
      rw [h1, List.get?_append (by rw [save_row_length]; exact hx)]
      exact save_row_get sq w fb y x hx

/-- C6: the encoder emits, for every pixel `(x, y)` and every channel, the
integer truncation of `256 * clamp(sqrt(c), 0, 0.999)` — gamma-correct
(square root) first, then clamp to [0, 0.999], then scale by 256, then
quantize; the pixel's triple appears at stream position `(h-1-y)*w + x`
(rows top-to-bottom, x ascending). -/
theorem c6_encoder_transform (sq : K → K) (fb : ℕ → Vec3 K) (w hgt x y : ℕ)
    (hx : x < w) (hy : y < hgt) :
    (save_image sq w fb hgt).get? ((hgt - 1 - y) * w + x) =
      some
        (truncInt (scale256 (clamp_channel (gamma_correct sq (fb (y * w + x)).x))),
         truncInt (scale256 (clamp_channel (gamma_correct sq (fb (y * w + x)).y))),
         truncInt (scale256 (clamp_channel (gamma_correct sq (fb (y * w + x)).z)))) :=
  save_image_get sq w fb x hx hgt y hy

/-- Witness for C6: a 1×1 frame buffer holding (1,1,1); the emitted channel is
`trunc(256 * 0.999) = 255`. -/
theorem c6_witness :
    (save_image (K := ℚ) id 1 (fun _ => ⟨1, 1, 1⟩) 1).get? ((1 - 1 - 0) * 1 + 0) =
      some
        (truncInt (scale256 (clamp_channel (gamma_correct id
            (((fun _ => (⟨1, 1, 1⟩ : Vec3 ℚ)) (0 * 1 + 0)).x)))),
         truncInt (scale256 (clamp_channel (gamma_correct id
            (((fun _ => (⟨1, 1, 1⟩ : Vec3 ℚ)) (0 * 1 + 0)).y)))),
         truncInt (scale256 (clamp_channel (gamma_correct id
            (((fun _ => (⟨1, 1, 1⟩ : Vec3 ℚ)) (0 * 1 + 0)).z))))) :=
  c6_encoder_transform id (fun _ => ⟨1, 1, 1⟩) 1 1 0 0 (by decide) (by decide)

end SaveImage

/-! ## Claim C5: the pixel task (render_kernel::operator(), main.cpp:37-58) -/

/-- The per-pixel random streams consumed by one pixel task: the two
antialiasing jitters, the lens-disk draw of `get_ray`, and the per-sample
per-bounce scatter draws (random_double and friends live in rtweekend.hpp,
not under src/; each task owns indexed streams). -/
structure PixelStreams (K : Type) where
  jx : ℕ → K
  jy : ℕ → K
  rd : ℕ → Vec3 K
  rnd : ℕ → ℕ → Vec3 K

/-- The camera `render_kernel::get_ray` (main.cpp:111-140): the hard-coded camera of the
source — look-from (13,2,3), 20° vertical field of view (the transcendental
`tan(radians(20)/2)` is the parameter `tanv`), aspect 16/9, focus distance 10,
lens radius 0.1/2; `rd` is the `random_in_unit_disk()` draw. -/
def get_ray (sq : K → K) (tanv : K) (rd : Vec3 K) (s t : K) : Ray K :=
  let h := tanv
  let aspect_ratio := (16 : K) / 9
  let viewport_height := 2 * h
  let viewport_width := aspect_ratio * viewport_height
  let look_from : Vec3 K := ⟨13, 2, 3⟩
  let focus_dist : K := 10
  let w := unit_vector sq (look_from - ⟨0, 0, 0⟩)
  let u := unit_vector sq (cross ⟨0, 1, 0⟩ w)
  let v := cross w u
  let origin := look_from
  let horizontal := (focus_dist * viewport_width) • u
  let vertical := (focus_dist * viewport_height) • v
  let lower_left_corner :=
    origin - divScalar horizontal 2 - divScalar vertical 2 - focus_dist • w
  let lens_radius := (1 / 10 : K) / 2
  let rdv := lens_radius • rd
  let offset := rdv.x • u + rdv.y • v
  ⟨origin + offset,
   lower_left_corner + s • horizontal + t • vertical - origin - offset⟩

/-- The sampling loop of `render_kernel::operator()` (main.cpp:45-54): sum
`samples` integrated colors of jittered camera rays, then divide by the
sample count. -/
def render_pixel (sq : K → K) (tanv : K) (S : List (sphere K))
    (samples depth w h : ℕ) (st : PixelStreams K) (x y : ℕ) : Vec3 K :=
  let final_color := (List.range samples).foldl
    (fun acc i => acc + color sq S (st.rnd i)
      (get_ray sq tanv (st.rd i) (((x : K) + st.jx i) / (w : K))
        (((y : K) + st.jy i) / (h : K))) depth) ⟨0, 0, 0⟩
  divScalar final_color (samples : K)

/-- One invocation of `render_kernel::operator()`: the linear frame-buffer
index it writes (`y * width + x`, main.cpp:43,57) together with the value. -/
def render_kernel_op (sq : K → K) (tanv : K) (S : List (sphere K))
    (samples depth w h : ℕ) (st : PixelStreams K) (x y : ℕ) :
    ℕ × Vec3 K :=
  (y * w + x, render_pixel sq tanv S samples depth w h st x y)

lemma foldl_add_eq_sum (f : ℕ → Vec3 K) :
    ∀ n, (List.range n).foldl (fun acc i => acc + f i) ⟨0, 0, 0⟩ =
      ∑ i ∈ Finset.range n, f i := by
  intro n
  induction n with
  | zero => simp
  | succ n ih =>
    rw [List.range_succ, List.foldl_append, ih, Finset.sum_range_succ]
    rfl

/-- C5: the pixel task at (x, y) accumulates exactly `samples` sample colors,
the i-th obtained by jittering to viewport coordinates
`u = (x + jx i)/width`, `v = (y + jy i)/height`, generating a camera ray and
integrating it; the sum is divided by the sample count and the average is
paired with the linear frame-buffer index `y * width + x`. -/
theorem c5_pixel_task (sq : K → K) (tanv : K) (S : List (sphere K))
    (samples depth w h : ℕ) (st : PixelStreams K) (x y : ℕ) :
    render_kernel_op sq tanv S samples depth w h st x y =
      (y * w + x,
        divScalar
          (∑ i ∈ Finset.range samples,
            color sq S (st.rnd i)
              (get_ray sq tanv (st.rd i) (((x : K) + st.jx i) / (w : K))
                (((y : K) + st.jy i) / (h : K))) depth)
          (samples : K)) := by
  simp only [render_kernel_op, render_pixel]
  rw [foldl_add_eq_sum]

/-! ## Claim C8: determinism of the seeded render -/

/-- Modelled from the spec: the RNG (rtweekend.hpp) is not under src/; §5
prescribes per-task streams "seeded e.g. from its pixel coordinates and/or a
global seed", which we realise with a linear congruential generator. -/
def lcg (n : ℕ) : ℕ := (1664525 * n + 1013904223) % 4294967296

/-- The i-th uniform draw in [0,1) of the stream with the given seed. -/
def rand01 (seed i : ℕ) : K := ((lcg^[i + 1] seed : ℕ) : K) / 4294967296

/-- Modelled from the spec: the per-task seed derived from the global seed and
the pixel's linear index (§5). -/
def pixSeed (seed w x y : ℕ) : ℕ := seed + 2654435761 * (y * w + x)

/-- The four per-task streams drawn from the task's seeded generator. -/
def seedStreams (seed w x y : ℕ) : PixelStreams K :=
  ⟨fun i => rand01 (pixSeed seed w x y) (4 * i),
   fun i => rand01 (pixSeed seed w x y) (4 * i + 1),
   fun i => ⟨rand01 (pixSeed seed w x y) (4 * i + 2),
             rand01 (pixSeed seed w x y) (4 * i + 3), 0⟩,
   fun i b => ⟨rand01 (pixSeed seed w x y) (1000 + 3 * (64 * i + b)),
               rand01 (pixSeed seed w x y) (1001 + 3 * (64 * i + b)),
               rand01 (pixSeed seed w x y) (1002 + 3 * (64 * i + b))⟩⟩

/-- The entry point `render` (main.cpp:148-169): launch one kernel instance per pixel with
bounce depth fixed to 5 (main.cpp:152); the frame buffer maps the linear
index to the color written by the task that owns that cell.  The RNG streams
are the spec-modelled seeded per-task streams. -/
def render (sq : K → K) (tanv : K) (w h samples : ℕ) (S : List (sphere K))
    (seed : ℕ) : ℕ → Vec3 K :=
  fun idx =>
    (render_kernel_op sq tanv S samples 5 w h
      (seedStreams seed w (idx % w) (idx / w)) (idx % w) (idx / w)).2

/-- C8: the render entry point is a pure function of scene, camera constants,
image size, sample count and the seed: two runs with equal seeds produce
bit-identical frame buffers. -/
theorem c8_deterministic_render (sq : K → K) (tanv : K) (w h samples : ℕ)
    (S : List (sphere K)) (seed1 seed2 : ℕ) (hseed : seed1 = seed2) :
    ∀ idx, render sq tanv w h samples S seed1 idx =
      render sq tanv w h samples S seed2 idx := by
  intro idx
  rw [hseed]

/-- Witness for C8: two renders with the seed 0 agree on cell 0. -/
theorem c8_witness :
    render (K := ℚ) id 0 1 1 1 [] 0 0 = render (K := ℚ) id 0 1 1 1 [] 0 0 :=
  c8_deterministic_render id 0 1 1 1 [] 0 0 rfl 0

end PathTracer
